import Mathlib

/-!
Shallow embedding of the glyph-caching and drawing core of src/vtedraw.cc
(the vte terminal widget's pangocairo rendering backend).

Pango/cairo handles (PangoFont, cairo_scaled_font_t, PangoContext members,
PangoLayoutLine) are abstracted as ids (Nat); the shaping engine is an
oracle function attached to each font_info.  Machine ints are modelled as
Nat/Int (all the quantities involved are small and nonnegative in the
source, and no overflow is possible at the sizes involved).
-/

namespace VteDraw

/-- FONT_CACHE_TIMEOUT (seconds), vtedraw.cc line 143. -/
def FONT_CACHE_TIMEOUT : Nat := 30

/-- MAX_RUN_LENGTH, vtedraw.cc line 156: bound on a cairo_show_glyphs batch. -/
def MAX_RUN_LENGTH : Nat := 100

/-- PANGO_PIXELS_CEIL on nonnegative pango units (PANGO_SCALE = 1024). -/
def pangoPixelsCeil (d : Nat) : Nat := (d + 1023) / 1024

/-- Pango marks unknown (notdef) glyphs by setting this flag bit in the
glyph value; `pango_layout_get_unknown_glyphs_count` counts exactly the
glyphs carrying it. -/
def PANGO_GLYPH_UNKNOWN_FLAG : Nat := 0x10000000

/-- One entry of a PangoGlyphString: glyph value plus its geometry
(width and x/y offsets in pango units). -/
structure PangoGlyphInfo where
  glyph : Nat
  geometryWidth : Nat
  xOffset : Int
  yOffset : Int
deriving DecidableEq, Repr

/-- A PangoGlyphItem (one run of a layout line): the run's font
(`item->analysis.font`, none models NULL) and its glyph string. -/
structure PangoGlyphItem where
  font : Option Nat
  glyphs : List PangoGlyphInfo
deriving DecidableEq, Repr

/-- What pango produces when the reusable layout is set to the
one-code-point string in font_info_get_unistr_info: the logical extents
width, the unknown-glyphs count, and line 0's run list (`none` models a
NULL line, `some runs` a line with that run list). -/
structure ShapeResult where
  widthPango : Nat
  unknownGlyphsCount : Nat
  line : Option (List PangoGlyphItem)
deriving DecidableEq, Repr

/-- The tagged union unistr_font_info together with its coverage tag:
a vtedraw.cc `union unistr_font_info` value is meaningful only under its
`coverage` tag, so the two are merged into one inductive. -/
inductive UFI where
  | unknown
  | usingPangoLayoutLine (line : Option (List PangoGlyphItem))
  | usingPangoGlyphString (font : Option Nat) (glyphString : List PangoGlyphInfo)
  | usingCairoGlyph (scaledFont : Nat) (glyphIndex : Nat)
deriving DecidableEq, Repr

/-- struct unistr_info: coverage+payload, has_unknown_chars, width. -/
structure UnistrInfo where
  hasUnknownChars : Bool
  width : Nat
  ufi : UFI
deriving DecidableEq, Repr

/-- A zero-initialized unistr_info slot (g_slice_new0: COVERAGE_UNKNOWN). -/
def unistrInfoZero : UnistrInfo := ⟨false, 0, UFI.unknown⟩

/-- pango_cairo_font_get_scaled_font through a possibly-NULL PangoFont. -/
def getScaledFont (sfOf : Nat → Option Nat) : Option Nat → Option Nat
  | none => none
  | some f => sfOf f

/-- The decision rule of font_info_get_unistr_info (vtedraw.cc lines
703-748) applied to the shape of the one-code-point string:
  - no line, no runs, or more than one run: COVERAGE_USE_PANGO_LAYOUT_LINE;
  - one run whose glyph string is a single glyph with value ≤ 0xFFFF at
    zero x/y offset, no unknown glyphs in the layout, and whose font
    yields a cairo scaled font: COVERAGE_USE_CAIRO_GLYPH;
  - one run otherwise: COVERAGE_USE_PANGO_GLYPH_STRING.
The bitwise test `(x_offset | y_offset) == 0` of the source is written as
the equivalent pair of equations. -/
def classifyShape (sfOf : Nat → Option Nat) (s : ShapeResult) : UnistrInfo :=
  let w := pangoPixelsCeil s.widthPango
  let hasUnknown : Bool := decide (s.unknownGlyphsCount ≠ 0)
  match s.line with
  | none => ⟨hasUnknown, w, UFI.usingPangoLayoutLine none⟩
  | some [] => ⟨hasUnknown, w, UFI.usingPangoLayoutLine (some [])⟩
  | some [item] =>
      match item.glyphs with
      | [g] =>
          if s.unknownGlyphsCount = 0 ∧ g.glyph ≤ 0xFFFF ∧ g.xOffset = 0 ∧ g.yOffset = 0 then
            match getScaledFont sfOf item.font with
            | some sf => ⟨hasUnknown, w, UFI.usingCairoGlyph sf g.glyph⟩
            | none => ⟨hasUnknown, w, UFI.usingPangoGlyphString item.font item.glyphs⟩
          else ⟨hasUnknown, w, UFI.usingPangoGlyphString item.font item.glyphs⟩
      | _ => ⟨hasUnknown, w, UFI.usingPangoGlyphString item.font item.glyphs⟩
  | some (i1 :: i2 :: rest) => ⟨hasUnknown, w, UFI.usingPangoLayoutLine (some (i1 :: i2 :: rest))⟩

/-- struct font_info.  The ascii_unistr_info[128] array and the
other_unistr_info hash table are both zero-initialized maps from code
point to unistr_info, so they are modelled as one total map with default
`unistrInfoZero`; `shaper` is the pango shaping oracle (the reusable
layout applied to a one-code-point string), `scaledFontOf` is
pango_cairo_font_get_scaled_font. -/
structure FontInfo where
  cache : Nat → UnistrInfo
  width : Nat
  height : Nat
  ascent : Nat
  shaper : Nat → ShapeResult
  scaledFontOf : Nat → Option Nat

/-- font_info_get_unistr_info (vtedraw.cc lines 683-759): return the
cached classification when present, otherwise shape the one-code-point
string, classify, and insert.  The Bool records whether the Shaper
(pango layout) was invoked. -/
def font_info_get_unistr_info (info : FontInfo) (c : Nat) :
    UnistrInfo × FontInfo × Bool :=
  let u := info.cache c
  if u.ufi = UFI.unknown then
    let u2 := classifyShape info.scaledFontOf (info.shaper c)
    (u2, { info with cache := fun x => if x = c then u2 else info.cache x }, true)
  else
    (u, info, false)

/-- The value font_info_get_unistr_info returns for c (a pure function of
the font_info: cached value if classified, classification of the shape
otherwise). -/
def resolveValue (info : FontInfo) (c : Nat) : UnistrInfo :=
  (font_info_get_unistr_info info c).1

/-- Pango's contract for unknown glyphs: the layout's unknown-glyphs count
is nonzero exactly when some glyph of the line carries
PANGO_GLYPH_UNKNOWN_FLAG. -/
def shapeWellFormed (s : ShapeResult) : Prop :=
  ∀ runs, s.line = some runs →
    (s.unknownGlyphsCount ≠ 0 ↔
      ∃ item ∈ runs, ∃ g ∈ item.glyphs, PANGO_GLYPH_UNKNOWN_FLAG ≤ g.glyph)

lemma classifyShape_ne_unknown (sfOf : Nat → Option Nat) (s : ShapeResult) :
    (classifyShape sfOf s).ufi ≠ UFI.unknown := by
  obtain ⟨wp, cnt, line⟩ := s
  rcases line with _ | l
  · simp [classifyShape]
  rcases l with _ | ⟨item, t⟩
  · simp [classifyShape]
  rcases t with _ | ⟨i2, rest⟩
  · obtain ⟨fo, gs⟩ := item
    rcases gs with _ | ⟨g, gt⟩
    · simp [classifyShape]
    rcases gt with _ | ⟨g2, gt2⟩
    · simp only [classifyShape]
      split
      · cases hsf : getScaledFont sfOf fo <;> simp [hsf]
      · simp
    · simp [classifyShape]
  · simp [classifyShape]

lemma resolveValue_ne_unknown (info : FontInfo) (c : Nat) :
    (resolveValue info c).ufi ≠ UFI.unknown := by
  by_cases h : (info.cache c).ufi = UFI.unknown
  · simp [resolveValue, font_info_get_unistr_info, h, classifyShape_ne_unknown]
  · simp [resolveValue, font_info_get_unistr_info, h]

lemma get_fst_eq_resolveValue (info : FontInfo) (c : Nat) :
    (font_info_get_unistr_info info c).1 = resolveValue info c := rfl

/-- Classifying c' never changes what any later lookup returns. -/
lemma get_preserves_resolveValue (info : FontInfo) (c' c : Nat) :
    resolveValue ((font_info_get_unistr_info info c').2.1) c = resolveValue info c := by
  by_cases hc : c = c'
  · subst hc
    by_cases h : (info.cache c).ufi = UFI.unknown
    · simp [resolveValue, font_info_get_unistr_info, h, classifyShape_ne_unknown]
    · simp [resolveValue, font_info_get_unistr_info, h]
  · by_cases h : (info.cache c').ufi = UFI.unknown
    · by_cases h2 : (info.cache c).ufi = UFI.unknown
      · simp [resolveValue, font_info_get_unistr_info, h, h2, hc]
      · simp [resolveValue, font_info_get_unistr_info, h, h2, hc]
    · simp [resolveValue, font_info_get_unistr_info, h]

lemma get_preserves_scalars (info : FontInfo) (c : Nat) :
    ((font_info_get_unistr_info info c).2.1).width = info.width ∧
    ((font_info_get_unistr_info info c).2.1).height = info.height ∧
    ((font_info_get_unistr_info info c).2.1).ascent = info.ascent ∧
    ((font_info_get_unistr_info info c).2.1).shaper = info.shaper ∧
    ((font_info_get_unistr_info info c).2.1).scaledFontOf = info.scaledFontOf := by
  by_cases h : (info.cache c).ufi = UFI.unknown <;>
    simp [font_info_get_unistr_info, h]

/-- If c is already classified, a lookup is a pure cache hit. -/
lemma get_of_cached (info : FontInfo) (c : Nat)
    (h : (info.cache c).ufi ≠ UFI.unknown) :
    font_info_get_unistr_info info c = (info.cache c, info, false) := by
  simp [font_info_get_unistr_info, h]

lemma classifyShape_cairo_iff (sfOf : Nat → Option Nat) (s : ShapeResult)
    (hwf : shapeWellFormed s) (hsf : ∀ f, (sfOf f).isSome = true) :
    (∃ sf gi, (classifyShape sfOf s).ufi = UFI.usingCairoGlyph sf gi) ↔
      (∃ item f g, s.line = some [item] ∧ item.font = some f ∧ item.glyphs = [g] ∧
        g.glyph ≤ 0xFFFF ∧ g.xOffset = 0 ∧ g.yOffset = 0) := by
  obtain ⟨wp, cnt, line⟩ := s
  constructor
  · rintro ⟨sf, gi, hcl⟩
    rcases line with _ | l
    · simp [classifyShape] at hcl
    rcases l with _ | ⟨item, t⟩
    · simp [classifyShape] at hcl
    rcases t with _ | ⟨i2, rest⟩
    · obtain ⟨fo, gs⟩ := item
      rcases gs with _ | ⟨g, gt⟩
      · simp [classifyShape] at hcl
      rcases gt with _ | ⟨g2, gt2⟩
      · simp only [classifyShape] at hcl
        split at hcl
        · rcases hsfc : getScaledFont sfOf fo with _ | sf2
          · rw [hsfc] at hcl; simp at hcl
          · rcases fo with _ | f
            · simp [getScaledFont] at hsfc
            · rename_i hcond
              exact ⟨⟨some f, [g]⟩, f, g, rfl, rfl, rfl,
                hcond.2.1, hcond.2.2.1, hcond.2.2.2⟩
        · simp at hcl
      · simp [classifyShape] at hcl
    · simp [classifyShape] at hcl
  · rintro ⟨item, f, g, hline, hfont, hg, hle, hx, hy⟩
    simp only [] at hline
    subst hline
    obtain ⟨fo, gs⟩ := item
    simp only [] at hfont hg
    subst hfont
    subst hg
    have hcount : cnt = 0 := by
      by_contra hne
      rcases (hwf _ rfl).mp hne with ⟨item2, hitem2, g2, hg2, hflag⟩
      simp only [List.mem_singleton] at hitem2
      subst hitem2
      simp only [List.mem_singleton] at hg2
      subst hg2
      have : PANGO_GLYPH_UNKNOWN_FLAG ≤ 0xFFFF := le_trans hflag hle
      simp [PANGO_GLYPH_UNKNOWN_FLAG] at this
    rcases hsome : sfOf f with _ | sf
    · have := hsf f; rw [hsome] at this; simp at this
    · refine ⟨sf, g.glyph, ?_⟩
      simp only [classifyShape, getScaledFont, hsome]
      rw [if_pos ⟨hcount, hle, hx, hy⟩]

lemma classifyShape_unknown_not_cairo (sfOf : Nat → Option Nat) (s : ShapeResult)
    (h : s.unknownGlyphsCount ≠ 0) :
    (∃ l, (classifyShape sfOf s).ufi = UFI.usingPangoLayoutLine l) ∨
    (∃ f gs, (classifyShape sfOf s).ufi = UFI.usingPangoGlyphString f gs) := by
  obtain ⟨wp, cnt, line⟩ := s
  simp only [] at h
  rcases line with _ | l
  · exact Or.inl ⟨none, by simp [classifyShape]⟩
  rcases l with _ | ⟨item, t⟩
  · exact Or.inl ⟨some [], by simp [classifyShape]⟩
  rcases t with _ | ⟨i2, rest⟩
  · obtain ⟨fo, gs⟩ := item
    rcases gs with _ | ⟨g, gt⟩
    · exact Or.inr ⟨fo, [], by simp [classifyShape]⟩
    rcases gt with _ | ⟨g2, gt2⟩
    · refine Or.inr ⟨fo, [g], ?_⟩
      simp only [classifyShape]
      rw [if_neg]
      intro hcond
      exact h hcond.1
    · exact Or.inr ⟨fo, g :: g2 :: gt2, by simp [classifyShape]⟩
  · exact Or.inl ⟨some (item :: i2 :: rest), by simp [classifyShape]⟩

/-- C4: when a not-yet-classified code point is classified, the result is
COVERAGE_USE_CAIRO_GLYPH (SingleGlyph) exactly when the shaped
one-code-point string is a single run with a single font resolving to
exactly one glyph at zero x/y offset whose glyph value fits in 16 bits;
and whenever the shaper reports unknown (notdef) glyphs the result is
routed to the glyph-string or layout-line path, never the cairo path.
Hypotheses: the code point is unclassified, the shape satisfies pango's
unknown-glyph contract, and (per the Shaper boundary contract) every font
yields a cairo scaled font. -/
theorem claim4_singleglyph_iff (info : FontInfo) (c : Nat)
    (hnew : (info.cache c).ufi = UFI.unknown)
    (hwf : shapeWellFormed (info.shaper c))
    (hsf : ∀ f, (info.scaledFontOf f).isSome = true) :
    ((∃ sf gi, ((font_info_get_unistr_info info c).1).ufi = UFI.usingCairoGlyph sf gi) ↔
      (∃ item f g, (info.shaper c).line = some [item] ∧ item.font = some f ∧
        item.glyphs = [g] ∧ g.glyph ≤ 0xFFFF ∧ g.xOffset = 0 ∧ g.yOffset = 0))
    ∧ ((info.shaper c).unknownGlyphsCount ≠ 0 →
        ((∃ l, ((font_info_get_unistr_info info c).1).ufi = UFI.usingPangoLayoutLine l) ∨
         (∃ f gs, ((font_info_get_unistr_info info c).1).ufi = UFI.usingPangoGlyphString f gs))) := by
  have hval : (font_info_get_unistr_info info c).1
      = classifyShape info.scaledFontOf (info.shaper c) := by
    simp [font_info_get_unistr_info, hnew]
  rw [hval]
  exact ⟨classifyShape_cairo_iff _ _ hwf hsf, classifyShape_unknown_not_cairo _ _⟩

/-- A concrete font context for witnesses: every code point shapes to one
run with one 16-bit glyph at zero offset, and fonts resolve to scaled
fonts. -/
def wShapeA : ShapeResult := ⟨10240, 0, some [⟨some 3, [⟨42, 10240, 0, 0⟩]⟩]⟩

def wInfoA : FontInfo :=
  ⟨fun _ => unistrInfoZero, 10, 20, 15, fun _ => wShapeA, fun f => some f⟩

theorem claim4_singleglyph_iff_witness :
    ∃ sf gi, ((font_info_get_unistr_info wInfoA 65).1).ufi = UFI.usingCairoGlyph sf gi :=
  (claim4_singleglyph_iff wInfoA 65 rfl
    (by intro runs hr; injection hr with hr; subst hr; decide)
    (fun f => rfl)).1.mpr
    ⟨⟨some 3, [⟨42, 10240, 0, 0⟩]⟩, 3, ⟨42, 10240, 0, 0⟩, rfl, rfl, rfl,
      by decide, rfl, rfl⟩

/-- C5: classify is idempotent: a second lookup of the same code point on
the same cache returns the identical unistr_info, leaves the cache
unchanged, and performs no second Shaper invocation. -/
theorem claim5_classify_idempotent (info : FontInfo) (c : Nat) :
    (font_info_get_unistr_info (font_info_get_unistr_info info c).2.1 c).1
      = (font_info_get_unistr_info info c).1
    ∧ (font_info_get_unistr_info (font_info_get_unistr_info info c).2.1 c).2.1
      = (font_info_get_unistr_info info c).2.1
    ∧ (font_info_get_unistr_info (font_info_get_unistr_info info c).2.1 c).2.2 = false := by
  by_cases h : (info.cache c).ufi = UFI.unknown
  · have h2 : (((font_info_get_unistr_info info c).2.1).cache c).ufi ≠ UFI.unknown := by
      simp [font_info_get_unistr_info, h, classifyShape_ne_unknown]
    rw [get_of_cached _ _ h2]
    simp [font_info_get_unistr_info, h]
  · rw [get_of_cached _ _ h]
    simp [get_of_cached _ _ h]

/-! The process-wide font_info registry (font_info_for_context):
a hash table keyed by PangoContext under context_hash/context_equal,
with reference counting (font_info_reference / font_info_destroy) and
delayed destruction (font_info_destroy_delayed on a
FONT_CACHE_TIMEOUT-second timeout). -/

/-- The five fields context_hash/context_equal read off a PangoContext
(vtedraw.cc lines 577-596): resolution (in pango units, as hashed),
font description, cairo font options, pango language (interned, so
pointer equality is value equality), and the fontconfig timestamp.
Non-numeric handles are abstracted as ids. -/
structure Fingerprint where
  resolution : Nat
  fontDesc : Nat
  fontOptions : Nat
  language : Nat
  fontconfigTimestamp : Nat
deriving DecidableEq, Repr

/-- context_equal (vtedraw.cc lines 587-596): conjunction of the five
field comparisons. -/
def context_equal (a b : Fingerprint) : Bool :=
  a.resolution == b.resolution
  && a.fontDesc == b.fontDesc
  && a.fontOptions == b.fontOptions
  && a.language == b.language
  && a.fontconfigTimestamp == b.fontconfigTimestamp

/-- context_hash (vtedraw.cc lines 577-585): xor of the five fields. -/
def context_hash (a : Fingerprint) : Nat :=
  a.resolution ^^^ a.fontDesc ^^^ a.fontOptions ^^^ a.language ^^^ a.fontconfigTimestamp

lemma context_equal_refl (a : Fingerprint) : context_equal a a = true := by
  simp [context_equal]

lemma context_equal_iff (a b : Fingerprint) : context_equal a b = true ↔ a = b := by
  obtain ⟨r1, d1, o1, l1, t1⟩ := a
  obtain ⟨r2, d2, o2, l2, t2⟩ := b
  simp [context_equal, Fingerprint.mk.injEq, and_assoc]

/-- One registry entry: the font_info instance (abstracted to its
identity `cacheId`) with its ref_count and pending destroy_timeout
(the absolute time at which the armed timer fires, none if not armed). -/
structure RegEntry where
  fp : Fingerprint
  cacheId : Nat
  refCount : Nat
  destroyDeadline : Option Nat
deriving DecidableEq, Repr

/-- The registry plus the event loop's clock and a fresh-instance
counter (a fresh font_info_allocate yields a new identity). -/
structure Registry where
  now : Nat
  entries : List RegEntry
  nextId : Nat
deriving DecidableEq, Repr

def Registry.empty : Registry := ⟨0, [], 0⟩

/-- Advance the event loop to time t: every armed destroy_timeout whose
deadline has been reached fires (font_info_destroy_delayed, vtedraw.cc
lines 521-530: font_info_unregister + font_info_free, removing the
entry). -/
def Registry.advanceTo (r : Registry) (t : Nat) : Registry :=
  { r with now := t,
           entries := r.entries.filter fun e =>
             match e.destroyDeadline with
             | some d => decide (t < d)
             | none => true }

/-- font_info_reference (vtedraw.cc lines 503-519) on the entry matching
fp: cancel any pending destroy_timeout and increment ref_count. -/
def referenceUpd (fp : Fingerprint) (x : RegEntry) : RegEntry :=
  if context_equal x.fp fp then
    { x with refCount := x.refCount + 1, destroyDeadline := none }
  else x

/-- font_info_find_for_context (vtedraw.cc lines 598-621): look up under
context_equal; on a hit, font_info_reference; on a miss,
font_info_allocate constructs a fresh instance which is registered with
ref_count = 1. -/
def Registry.acquire (r : Registry) (fp : Fingerprint) : Registry × Nat :=
  match r.entries.find? (fun e => context_equal e.fp fp) with
  | some e =>
      ({ r with entries := r.entries.map (referenceUpd fp) }, e.cacheId)
  | none =>
      ({ r with
           entries := { fp := fp, cacheId := r.nextId, refCount := 1,
                        destroyDeadline := none } :: r.entries,
           nextId := r.nextId + 1 },
       r.nextId)

/-- font_info_destroy (vtedraw.cc lines 532-548) on the entry holding the
instance id: guard ref_count > 0, decrement; on reaching zero do not
free, but arm a one-shot destroy_timeout FONT_CACHE_TIMEOUT time units
ahead. -/
def destroyUpd (now id : Nat) (e : RegEntry) : RegEntry :=
  if e.cacheId = id then
    if e.refCount = 0 then e
    else if e.refCount = 1 then
      { e with refCount := 0, destroyDeadline := some (now + FONT_CACHE_TIMEOUT) }
    else { e with refCount := e.refCount - 1 }
  else e

def Registry.release (r : Registry) (id : Nat) : Registry :=
  { r with entries := r.entries.map (destroyUpd r.now id) }

/-- ref_count of the entry registered for fp (0 if none). -/
def refCountOf (r : Registry) (fp : Fingerprint) : Nat :=
  match r.entries.find? (fun e => context_equal e.fp fp) with
  | some e => e.refCount
  | none => 0

/-- Registry well-formedness: registered fingerprints are pairwise
distinct, instance identities are pairwise distinct, and all identities
are below the fresh counter. -/
def RegWF (r : Registry) : Prop :=
  r.entries.Pairwise (fun e1 e2 => e1.fp ≠ e2.fp)
  ∧ r.entries.Pairwise (fun e1 e2 => e1.cacheId ≠ e2.cacheId)
  ∧ ∀ e ∈ r.entries, e.cacheId < r.nextId

/-- Scenario pieces for the eviction/reuse race: acquire at t0 ... -/
def evictAcq1 (fp : Fingerprint) (t0 : Nat) : Registry × Nat :=
  (Registry.empty.advanceTo t0).acquire fp

/-- ... release at t1 ... -/
def evictRel (fp : Fingerprint) (t0 t1 : Nat) : Registry :=
  ((evictAcq1 fp t0).1.advanceTo t1).release (evictAcq1 fp t0).2

/-- ... and reacquire at t2. -/
def evictAcq2 (fp : Fingerprint) (t0 t1 t2 : Nat) : Registry × Nat :=
  ((evictRel fp t0 t1).advanceTo t2).acquire fp

/-- C2: after acquire(F) and a release dropping ref_count to zero, the
entry is not destroyed: it stays registered with a one-shot timer armed
exactly FONT_CACHE_TIMEOUT (30) time units ahead.  Reacquiring before
the timer fires returns the same instance and cancels the pending
destruction (ref_count back to 1, no deadline); reacquiring once the
timer has fired returns a newly constructed instance. -/
theorem claim2_delayed_eviction (fp : Fingerprint) (t0 t1 t2 : Nat)
    (h01 : t0 ≤ t1) (h12 : t1 ≤ t2) :
    (evictRel fp t0 t1).entries
        = [⟨fp, (evictAcq1 fp t0).2, 0, some (t1 + FONT_CACHE_TIMEOUT)⟩]
    ∧ (t2 < t1 + FONT_CACHE_TIMEOUT →
        (evictAcq2 fp t0 t1 t2).2 = (evictAcq1 fp t0).2
        ∧ (evictAcq2 fp t0 t1 t2).1.entries
            = [⟨fp, (evictAcq1 fp t0).2, 1, none⟩])
    ∧ (t1 + FONT_CACHE_TIMEOUT ≤ t2 →
        (evictAcq2 fp t0 t1 t2).2 ≠ (evictAcq1 fp t0).2
        ∧ (evictAcq2 fp t0 t1 t2).2 = (evictRel fp t0 t1).nextId) := by
  have hrel : (evictRel fp t0 t1).entries
      = [⟨fp, 0, 0, some (t1 + FONT_CACHE_TIMEOUT)⟩] := by
    simp [evictRel, evictAcq1, Registry.empty, Registry.advanceTo,
          Registry.acquire, Registry.release, destroyUpd]
  have hid1 : (evictAcq1 fp t0).2 = 0 := by
    simp [evictAcq1, Registry.empty, Registry.advanceTo, Registry.acquire]
  have hnext : (evictRel fp t0 t1).nextId = 1 := by
    simp [evictRel, evictAcq1, Registry.empty, Registry.advanceTo,
          Registry.acquire, Registry.release]
  refine ⟨by rw [hrel, hid1], ?_, ?_⟩
  · intro hlt
    have : (evictAcq2 fp t0 t1 t2) =
        (⟨t2, [⟨fp, 0, 1, none⟩], 1⟩, 0) := by
      simp [evictAcq2, Registry.advanceTo, hrel, hnext, hlt,
            Registry.acquire, List.find?, context_equal_refl, referenceUpd,
            evictRel, evictAcq1, Registry.empty, Registry.release, destroyUpd]
    rw [this, hid1]
    exact ⟨rfl, rfl⟩
  · intro hge
    have hnotlt : ¬ (t2 < t1 + FONT_CACHE_TIMEOUT) := not_lt.mpr hge
    have : (evictAcq2 fp t0 t1 t2) =
        (⟨t2, [⟨fp, 1, 1, none⟩], 2⟩, 1) := by
      simp [evictAcq2, Registry.advanceTo, hrel, hnext, hnotlt,
            Registry.acquire, List.find?, referenceUpd,
            evictRel, evictAcq1, Registry.empty, Registry.release, destroyUpd]
    rw [this, hid1, hnext]
    exact ⟨Nat.one_ne_zero, rfl⟩

def fpW : Fingerprint := ⟨96, 1, 2, 3, 4⟩

lemma referenceUpd_fp (fp : Fingerprint) (x : RegEntry) :
    (referenceUpd fp x).fp = x.fp := by
  unfold referenceUpd; split <;> rfl

lemma referenceUpd_id (fp : Fingerprint) (x : RegEntry) :
    (referenceUpd fp x).cacheId = x.cacheId := by
  unfold referenceUpd; split <;> rfl

lemma destroyUpd_fp (now id : Nat) (x : RegEntry) :
    (destroyUpd now id x).fp = x.fp := by
  unfold destroyUpd; split <;> [skip; rfl]; split <;> [rfl; skip]; split <;> rfl

lemma destroyUpd_id (now id : Nat) (x : RegEntry) :
    (destroyUpd now id x).cacheId = x.cacheId := by
  unfold destroyUpd; split <;> [skip; rfl]; split <;> [rfl; skip]; split <;> rfl

lemma find?_map_of_pres (p : RegEntry → Bool) (u : RegEntry → RegEntry)
    (hp : ∀ x, p (u x) = p x) (es : List RegEntry) :
    (es.map u).find? p = (es.find? p).map u := by
  induction es with
  | nil => rfl
  | cons x xs ih =>
    cases hpx : p x with
    | true =>
        rw [List.map_cons, List.find?_cons_of_pos _ (by rw [hp x]; exact hpx),
            List.find?_cons_of_pos _ hpx]
        rfl
    | false =>
        rw [List.map_cons, List.find?_cons_of_neg _ (by simp [hp x, hpx]),
            List.find?_cons_of_neg _ (by simp [hpx]), ih]

lemma acquire_again_same_id (r : Registry) (fp : Fingerprint) :
    ((r.acquire fp).1.acquire fp).2 = (r.acquire fp).2 := by
  cases hf : r.entries.find? (fun e => context_equal e.fp fp) with
  | none =>
      have hfind : List.find? (fun e : RegEntry => context_equal e.fp fp)
          (⟨fp, r.nextId, 1, none⟩ :: r.entries) = some ⟨fp, r.nextId, 1, none⟩ :=
        List.find?_cons_of_pos _ (context_equal_refl fp)
      simp [Registry.acquire, hf, hfind]
  | some e =>
      have hmap : (r.entries.map (referenceUpd fp)).find?
            (fun e => context_equal e.fp fp)
          = some (referenceUpd fp e) := by
        rw [find?_map_of_pres _ _ (fun x => by rw [referenceUpd_fp]), hf]
        rfl
      simp [Registry.acquire, hf, hmap, referenceUpd_id]

lemma acquire_increments_refCount (r : Registry) (fp : Fingerprint) :
    refCountOf (r.acquire fp).1 fp = refCountOf r fp + 1 := by
  cases hf : r.entries.find? (fun e => context_equal e.fp fp) with
  | none =>
      have hfind : List.find? (fun e : RegEntry => context_equal e.fp fp)
          (⟨fp, r.nextId, 1, none⟩ :: r.entries) = some ⟨fp, r.nextId, 1, none⟩ :=
        List.find?_cons_of_pos _ (context_equal_refl fp)
      simp [Registry.acquire, hf, refCountOf, hfind]
  | some e =>
      have hpe : context_equal e.fp fp = true := by
        have := List.find?_some hf
        simpa using this
      have hmap : (r.entries.map (referenceUpd fp)).find?
            (fun e => context_equal e.fp fp)
          = some (referenceUpd fp e) := by
        rw [find?_map_of_pres _ _ (fun x => by rw [referenceUpd_fp]), hf]
        rfl
      simp [Registry.acquire, hf, refCountOf, hmap, referenceUpd, hpe]

lemma regWF_empty : RegWF Registry.empty := by
  refine ⟨List.Pairwise.nil, List.Pairwise.nil, ?_⟩
  intro e he
  simp [Registry.empty] at he

lemma regWF_acquire (r : Registry) (fp : Fingerprint) (h : RegWF r) :
    RegWF (r.acquire fp).1 := by
  obtain ⟨hfp, hid, hlt⟩ := h
  cases hf : r.entries.find? (fun e => context_equal e.fp fp) with
  | none =>
      have hnone : ∀ x ∈ r.entries, context_equal x.fp fp = false := by
        intro x hx
        have := List.find?_eq_none.mp hf x hx
        simpa using this
      simp only [Registry.acquire, hf]
      refine ⟨?_, ?_, ?_⟩
      · refine List.Pairwise.cons ?_ hfp
        intro e he heq
        have : context_equal e.fp fp = true := by
          rw [context_equal_iff]
          exact heq.symm
        rw [hnone e he] at this
        exact Bool.false_ne_true this
      · refine List.Pairwise.cons ?_ hid
        intro e he heq
        exact absurd (heq ▸ hlt e he) (lt_irrefl _)
      · intro e he
        rcases List.mem_cons.mp he with rfl | he2
        · exact Nat.lt_succ_self _
        · exact Nat.lt_succ_of_lt (hlt e he2)
  | some e =>
      simp only [Registry.acquire, hf]
      refine ⟨?_, ?_, ?_⟩
      · rw [List.pairwise_map]
        refine hfp.imp ?_
        intro a b hab
        rw [referenceUpd_fp, referenceUpd_fp]
        exact hab
      · rw [List.pairwise_map]
        refine hid.imp ?_
        intro a b hab
        rw [referenceUpd_id, referenceUpd_id]
        exact hab
      · intro x hx
        rcases List.mem_map.mp hx with ⟨y, hy, rfl⟩
        rw [referenceUpd_id]
        exact hlt y hy

lemma regWF_release (r : Registry) (id : Nat) (h : RegWF r) :
    RegWF (r.release id) := by
  obtain ⟨hfp, hid, hlt⟩ := h
  refine ⟨?_, ?_, ?_⟩
  · rw [Registry.release]
    rw [List.pairwise_map]
    refine hfp.imp ?_
    intro a b hab
    rw [destroyUpd_fp, destroyUpd_fp]
    exact hab
  · rw [Registry.release]
    rw [List.pairwise_map]
    refine hid.imp ?_
    intro a b hab
    rw [destroyUpd_id, destroyUpd_id]
    exact hab
  · intro x hx
    rw [Registry.release] at hx
    rcases List.mem_map.mp hx with ⟨y, hy, rfl⟩
    rw [destroyUpd_id]
    exact hlt y hy

lemma regWF_advanceTo (r : Registry) (t : Nat) (h : RegWF r) :
    RegWF (r.advanceTo t) := by
  obtain ⟨hfp, hid, hlt⟩ := h
  refine ⟨hfp.sublist (List.filter_sublist _), hid.sublist (List.filter_sublist _), ?_⟩
  intro x hx
  rw [Registry.advanceTo] at hx
  exact hlt x (List.mem_of_mem_filter hx)

lemma acquire_id_lt (r : Registry) (fp : Fingerprint) (h : RegWF r) :
    (r.acquire fp).2 < (r.acquire fp).1.nextId := by
  obtain ⟨-, -, hlt⟩ := h
  cases hf : r.entries.find? (fun e => context_equal e.fp fp) with
  | none => simp [Registry.acquire, hf]
  | some e =>
      simp only [Registry.acquire, hf]
      exact hlt e (List.mem_of_find?_eq_some hf)

lemma acquire_entry_exists (r : Registry) (fp : Fingerprint) :
    ∃ e ∈ (r.acquire fp).1.entries, e.cacheId = (r.acquire fp).2 ∧ e.fp = fp := by
  cases hf : r.entries.find? (fun e => context_equal e.fp fp) with
  | none =>
      refine ⟨⟨fp, r.nextId, 1, none⟩, ?_, ?_, rfl⟩
      · simp [Registry.acquire, hf]
      · simp [Registry.acquire, hf]
  | some e =>
      have hpe : context_equal e.fp fp = true := by
        have := List.find?_some hf
        simpa using this
      refine ⟨referenceUpd fp e, ?_, ?_, ?_⟩
      · simp only [Registry.acquire, hf]
        exact List.mem_map_of_mem _ (List.mem_of_find?_eq_some hf)
      · simp [Registry.acquire, hf, referenceUpd_id]
      · rw [referenceUpd_fp]
        exact (context_equal_iff _ _).mp hpe

lemma acquire_nextId_le (r : Registry) (fp : Fingerprint) :
    r.nextId ≤ (r.acquire fp).1.nextId := by
  cases hf : r.entries.find? (fun e => context_equal e.fp fp) with
  | none => simp [Registry.acquire, hf]
  | some e => simp [Registry.acquire, hf]

lemma acquire_distinct_ids (r : Registry) (fp1 fp2 : Fingerprint)
    (h : RegWF r) (hne : fp1 ≠ fp2) :
    ((r.acquire fp1).1.acquire fp2).2 ≠ (r.acquire fp1).2 := by
  have hwf1 : RegWF (r.acquire fp1).1 := regWF_acquire r fp1 h
  have hlt1 : (r.acquire fp1).2 < (r.acquire fp1).1.nextId := acquire_id_lt r fp1 h
  obtain ⟨e1, he1mem, he1id, he1fp⟩ := acquire_entry_exists r fp1
  set r1 := (r.acquire fp1).1 with hr1
  cases hf : r1.entries.find? (fun e => context_equal e.fp fp2) with
  | none =>
      -- a fresh instance is constructed: its id is the fresh counter
      have hnew : (r1.acquire fp2).2 = r1.nextId := by
        simp [Registry.acquire, hf]
      rw [hnew]
      exact Ne.symm (Nat.ne_of_lt hlt1)
  | some e2 =>
      have he2fp : e2.fp = fp2 := by
        have := List.find?_some hf
        exact (context_equal_iff _ _).mp (by simpa using this)
      have he2mem : e2 ∈ r1.entries := List.mem_of_find?_eq_some hf
      have hid2 : (r1.acquire fp2).2 = e2.cacheId := by
        simp [Registry.acquire, hf]
      rw [hid2, ← he1id]
      have hne12 : e2 ≠ e1 := by
        intro hcontra
        rw [hcontra, he1fp] at he2fp
        exact hne he2fp
      have hsymm : Symmetric (fun a b : RegEntry => a.cacheId ≠ b.cacheId) :=
        fun a b hab => Ne.symm hab
      exact hwf1.2.1.forall hsymm he2mem he1mem hne12

/-- C3: fingerprint equality is the conjunction of the five field
equalities; hashing respects it; acquiring twice with equal fingerprints
returns the same instance with ref_count incremented (never a
duplicate); the registry invariant (at most one instance per distinct
fingerprint, all instance identities distinct) holds initially and is
preserved by every operation; and acquiring with fingerprints that
differ returns distinct instances. -/
theorem claim3_registry_sharing :
    (∀ a b : Fingerprint, context_equal a b = true ↔
        (a.resolution = b.resolution ∧ a.fontDesc = b.fontDesc
          ∧ a.fontOptions = b.fontOptions ∧ a.language = b.language
          ∧ a.fontconfigTimestamp = b.fontconfigTimestamp))
    ∧ (∀ a b : Fingerprint, context_equal a b = true → context_hash a = context_hash b)
    ∧ (∀ (r : Registry) (fp : Fingerprint),
        ((r.acquire fp).1.acquire fp).2 = (r.acquire fp).2
        ∧ refCountOf (r.acquire fp).1 fp = refCountOf r fp + 1)
    ∧ (RegWF Registry.empty
        ∧ ∀ r : Registry, RegWF r →
            (∀ fp, RegWF (r.acquire fp).1) ∧ (∀ id, RegWF (r.release id))
              ∧ (∀ t, RegWF (r.advanceTo t)))
    ∧ (∀ (r : Registry) (fp1 fp2 : Fingerprint), RegWF r → fp1 ≠ fp2 →
        ((r.acquire fp1).1.acquire fp2).2 ≠ (r.acquire fp1).2) := by
  refine ⟨?_, ?_, ?_, ⟨regWF_empty, ?_⟩, ?_⟩
  · intro a b
    obtain ⟨r1, d1, o1, l1, t1⟩ := a
    obtain ⟨r2, d2, o2, l2, t2⟩ := b
    simp [context_equal, and_assoc]
  · intro a b hab
    rw [(context_equal_iff a b).mp hab]
  · intro r fp
    exact ⟨acquire_again_same_id r fp, acquire_increments_refCount r fp⟩
  · intro r h
    exact ⟨fun fp => regWF_acquire r fp h, fun id => regWF_release r id h,
           fun t => regWF_advanceTo r t h⟩
  · exact acquire_distinct_ids

def fpW2 : Fingerprint := ⟨120, 1, 2, 3, 4⟩

theorem claim3_registry_sharing_witness :
    context_equal fpW fpW = true
    ∧ ((Registry.empty.acquire fpW).1.acquire fpW).2 = (Registry.empty.acquire fpW).2
    ∧ ((Registry.empty.acquire fpW).1.acquire fpW2).2 ≠ (Registry.empty.acquire fpW).2 :=
  ⟨(claim3_registry_sharing.1 fpW fpW).mpr ⟨rfl, rfl, rfl, rfl, rfl⟩,
   (claim3_registry_sharing.2.2.1 Registry.empty fpW).1,
   claim3_registry_sharing.2.2.2.2 Registry.empty fpW fpW2 regWF_empty (by decide)⟩

theorem claim2_delayed_eviction_witness :
    (evictAcq2 fpW 0 5 10).2 = (evictAcq1 fpW 0).2
    ∧ (evictAcq2 fpW 0 5 100).2 ≠ (evictAcq1 fpW 0).2 :=
  ⟨((claim2_delayed_eviction fpW 0 5 10 (by decide) (by decide)).2.1 (by decide)).1,
   ((claim2_delayed_eviction fpW 0 5 100 (by decide) (by decide)).2.2 (by decide)).1⟩

/-! The widget-side struct _vte_draw: four style slots, cell metrics,
and the text-drawing dispatch loop. -/

/-- Modelled from the spec: the numeric values of the VTE_DRAW_NORMAL /
VTE_DRAW_BOLD / VTE_DRAW_ITALIC style indices live in vtedraw.hh, which
is not under src/.  The slot order normal(0) / bold(1) / italic(2) /
bold-italic(3) is the spec's StyleSet slot order; it is also forced by
vtedraw.cc itself, whose `fonts[4]` is populated exactly at
VTE_DRAW_NORMAL, VTE_DRAW_BOLD, VTE_DRAW_ITALIC and
VTE_DRAW_ITALIC|VTE_DRAW_BOLD, and whose free loop deduplicates a slot
against slot-1 (aliases are made at `normal | VTE_DRAW_BOLD`). -/
def VTE_DRAW_NORMAL : Fin 4 := 0

def VTE_DRAW_BOLD : Fin 4 := 1

def VTE_DRAW_ITALIC : Fin 4 := 2

/-- GtkBorder char_spacing. -/
structure GtkBorder where
  left : Int
  right : Int
  top : Int
  bottom : Int
deriving DecidableEq, Repr

/-- struct _vte_draw_text_request (fields of it used by vtedraw.cc):
code point, pixel position of the cell's top-left corner, column span,
and the bidi mirroring flags. -/
structure TextRequest where
  c : Nat
  x : Int
  y : Int
  columns : Nat
  mirror : Bool
  boxMirror : Bool
deriving DecidableEq, Repr

/-- struct _vte_draw (vtedraw.cc lines 770-780): the four style fonts
(the claims below concern states where fonts are loaded, so the slots
are total), cell metrics and char_spacing as set by
_vte_draw_set_text_font.  `mirrorChar` is the vte_bidi_get_mirror_char
oracle (bidi.cc, outside this core): given the code point and the
box_mirror flag it returns the substituted code point. -/
structure Draw where
  fonts : Fin 4 → FontInfo
  cell_width : Int
  cell_height : Int
  char_spacing : GtkBorder
  mirrorChar : Nat → Bool → Nat

/-- _vte_draw_unichar_is_local_graphic (vtedraw.cc lines 979-989), with
WITH_UNICODE_NEXT defined (line 21): Box Drawing, Block Elements, the
four triangle shapes, and the Symbols for Legacy Computing block. -/
def _vte_draw_unichar_is_local_graphic (c : Nat) : Bool :=
  decide ((0x2500 ≤ c ∧ c ≤ 0x259f) ∨ (0x25e2 ≤ c ∧ c ≤ 0x25e5) ∨
          (0x1fb00 ≤ c ∧ c ≤ 0x1fbff))

/-- _vte_draw_get_char_edges (vtedraw.cc lines 991-1035): left and right
edges of the glyph for c relative to the cell's left edge, threading the
font cache (the width lookup may classify c).  The `(fits_width - w)/2`
division is C truncating division, written Int.tdiv. -/
def _vte_draw_get_char_edges (draw : Draw) (c : Nat) (columns : Nat) (style : Fin 4) :
    Int × Int × Draw :=
  if _vte_draw_unichar_is_local_graphic c then
    (0, draw.cell_width * (columns : Int), draw)
  else
    let res := font_info_get_unistr_info (draw.fonts style) c
    let draw1 : Draw := { draw with fonts := Function.update draw.fonts style res.2.1 }
    let w : Int := (res.1.width : Int)
    let normal_width : Int := ((draw1.fonts VTE_DRAW_NORMAL).width : Int) * (columns : Int)
    let fits_width : Int := draw1.cell_width * (columns : Int)
    let l : Int :=
      if w ≤ normal_width then
        draw1.char_spacing.left + (if columns = 2 then draw1.char_spacing.right else 0)
      else if w ≤ fits_width then Int.tdiv (fits_width - w) 2
      else 0
    (l, l + w, draw1)

/-- One emitted Canvas call of _vte_draw_text_internal:
_vte_draw_terminal_draw_graphic for the local-graphic range,
pango_cairo_show_layout_line, pango_cairo_show_glyph_string, or a
cairo_show_glyphs batch (scaled font + positioned glyph list). -/
inductive DrawCall where
  | graphic (c : Nat) (x y : Int) (fontWidth columns fontHeight : Nat)
  | showLayoutLine (line : Option (List PangoGlyphItem)) (x y : Int)
  | showGlyphString (font : Option Nat) (glyphs : List PangoGlyphInfo) (x y : Int)
  | showGlyphs (scaledFont : Nat) (glyphs : List (Nat × Int × Int))
deriving DecidableEq, Repr

/-- Flush the pending cairo glyph batch (the `if (n_cr_glyphs)` blocks of
_vte_draw_text_internal).  When the batch is nonempty the scaled font is
the one recorded in last_scaled_font (never NULL then; getD 0 is the
unreachable NULL case). -/
def flushGlyphs (last : Option Nat) (pend : List (Nat × Int × Int)) : List DrawCall :=
  if pend.isEmpty then [] else [DrawCall.showGlyphs (last.getD 0) pend]

/-- One iteration of the request loop of _vte_draw_text_internal
(vtedraw.cc lines 2227-2286).  Returns the draw calls it emits, the
updated draw (font caches may classify), and the new
(last_scaled_font, pending batch) accumulator. -/
def drawTextStep (style : Fin 4) (draw : Draw) (last : Option Nat)
    (pend : List (Nat × Int × Int)) (req : TextRequest) :
    List DrawCall × Draw × Option Nat × List (Nat × Int × Int) :=
  let c := if req.mirror then draw.mirrorChar req.c req.boxMirror else req.c
  if _vte_draw_unichar_is_local_graphic c then
    ([DrawCall.graphic c req.x req.y (draw.fonts style).width req.columns
        (draw.fonts style).height],
     draw, last, pend)
  else
    let res := font_info_get_unistr_info (draw.fonts style) c
    let draw1 : Draw := { draw with fonts := Function.update draw.fonts style res.2.1 }
    let edges := _vte_draw_get_char_edges draw1 c req.columns style
    let draw2 := edges.2.2
    let x : Int := edges.1 + req.x
    let y : Int := req.y + draw2.char_spacing.top
        + ((draw2.fonts VTE_DRAW_NORMAL).ascent : Int)
    match res.1.ufi with
    | UFI.unknown => ([], draw2, last, pend)
    | UFI.usingPangoLayoutLine line =>
        ([DrawCall.showLayoutLine line x y], draw2, last, pend)
    | UFI.usingPangoGlyphString font gs =>
        ([DrawCall.showGlyphString font gs x y], draw2, last, pend)
    | UFI.usingCairoGlyph sf gi =>
        if last ≠ some sf ∨ pend.length = MAX_RUN_LENGTH then
          (flushGlyphs last pend, draw2, some sf, [(gi, x, y)])
        else
          ([], draw2, some sf, pend ++ [(gi, x, y)])

def drawTextLoop (style : Fin 4) (draw : Draw) (last : Option Nat)
    (pend : List (Nat × Int × Int)) :
    List TextRequest → List DrawCall × Draw × Option Nat × List (Nat × Int × Int)
  | [] => ([], draw, last, pend)
  | req :: reqs =>
      let s := drawTextStep style draw last pend req
      let rest := drawTextLoop style s.2.1 s.2.2.1 s.2.2.2 reqs
      (s.1 ++ rest.1, rest.2)

/-- _vte_draw_text_internal (vtedraw.cc lines 2209-2294): run the request
loop starting from an empty batch and flush whatever batch is pending at
the end. -/
def _vte_draw_text_internal (draw : Draw) (reqs : List TextRequest) (style : Fin 4) :
    List DrawCall × Draw :=
  let r := drawTextLoop style draw none [] reqs
  (r.1 ++ flushGlyphs r.2.2.1 r.2.2.2, r.2.1)

/-- _vte_draw_text (vtedraw.cc lines 2296-2320): debug logging plus
_vte_draw_text_internal. -/
def _vte_draw_text (draw : Draw) (reqs : List TextRequest) (style : Fin 4) :
    List DrawCall × Draw :=
  _vte_draw_text_internal draw reqs style

/-- _vte_draw_has_char (vtedraw.cc lines 2325-2338): classify c in the
style's font and report the negation of has_unknown_chars. -/
def _vte_draw_has_char (draw : Draw) (c : Nat) (style : Fin 4) : Bool × Draw :=
  let res := font_info_get_unistr_info (draw.fonts style) c
  (!res.1.hasUnknownChars, { draw with fonts := Function.update draw.fonts style res.2.1 })

/-- _vte_draw_char (vtedraw.cc lines 2340-2361): draw the single request
only when _vte_draw_has_char holds for it, and return that boolean. -/
def _vte_draw_char (draw : Draw) (req : TextRequest) (style : Fin 4) :
    Bool × List DrawCall × Draw :=
  let hc := _vte_draw_has_char draw req.c style
  if hc.1 then
    let r := _vte_draw_text hc.2 [req] style
    (hc.1, r.1, r.2)
  else
    (hc.1, [], hc.2)

lemma update_fonts_width (draw : Draw) (style : Fin 4) (c : Nat) (s : Fin 4) :
    ((Function.update draw.fonts style
        ((font_info_get_unistr_info (draw.fonts style) c).2.1)) s).width
      = (draw.fonts s).width := by
  by_cases h : s = style
  · subst h
    rw [Function.update_same]
    exact (get_preserves_scalars _ _).1
  · rw [Function.update_noteq h]

lemma update_fonts_ascent (draw : Draw) (style : Fin 4) (c : Nat) (s : Fin 4) :
    ((Function.update draw.fonts style
        ((font_info_get_unistr_info (draw.fonts style) c).2.1)) s).ascent
      = (draw.fonts s).ascent := by
  by_cases h : s = style
  · subst h
    rw [Function.update_same]
    exact (get_preserves_scalars _ _).2.2.1
  · rw [Function.update_noteq h]

lemma update_fonts_height (draw : Draw) (style : Fin 4) (c : Nat) (s : Fin 4) :
    ((Function.update draw.fonts style
        ((font_info_get_unistr_info (draw.fonts style) c).2.1)) s).height
      = (draw.fonts s).height := by
  by_cases h : s = style
  · subst h
    rw [Function.update_same]
    exact (get_preserves_scalars _ _).2.1
  · rw [Function.update_noteq h]

lemma update_fonts_resolve (draw : Draw) (style : Fin 4) (c : Nat) (s : Fin 4) (c2 : Nat) :
    resolveValue ((Function.update draw.fonts style
        ((font_info_get_unistr_info (draw.fonts style) c).2.1)) s) c2
      = resolveValue (draw.fonts s) c2 := by
  by_cases h : s = style
  · subst h
    rw [Function.update_same]
    exact get_preserves_resolveValue _ _ _
  · rw [Function.update_noteq h]

/-- C10: for a code point outside the local-graphic ranges the char-edges
query returns right = left + w with w the cached advance width, and left
is char_spacing.left (plus the right spacing for 2-column cells) when w
fits the normal width times columns, (cell_width*columns - w)/2 when w
still fits the cell, and 0 otherwise; for a local-graphic code point it
returns (0, cell_width*columns) without consulting the codepoint cache
(the draw state is returned untouched). -/
theorem claim10_char_edges (draw : Draw) (c : Nat) (columns : Nat) (style : Fin 4) :
    (_vte_draw_unichar_is_local_graphic c = false →
      ((_vte_draw_get_char_edges draw c columns style).2.1
          = (_vte_draw_get_char_edges draw c columns style).1
            + ((resolveValue (draw.fonts style) c).width : Int)
        ∧ (((resolveValue (draw.fonts style) c).width : Int)
              ≤ ((draw.fonts VTE_DRAW_NORMAL).width : Int) * (columns : Int) →
            (_vte_draw_get_char_edges draw c columns style).1
              = draw.char_spacing.left
                + (if columns = 2 then draw.char_spacing.right else 0))
        ∧ (¬ ((resolveValue (draw.fonts style) c).width : Int)
              ≤ ((draw.fonts VTE_DRAW_NORMAL).width : Int) * (columns : Int) →
            ((resolveValue (draw.fonts style) c).width : Int)
              ≤ draw.cell_width * (columns : Int) →
            (_vte_draw_get_char_edges draw c columns style).1
              = Int.tdiv (draw.cell_width * (columns : Int)
                  - ((resolveValue (draw.fonts style) c).width : Int)) 2)
        ∧ (¬ ((resolveValue (draw.fonts style) c).width : Int)
              ≤ ((draw.fonts VTE_DRAW_NORMAL).width : Int) * (columns : Int) →
            ¬ ((resolveValue (draw.fonts style) c).width : Int)
              ≤ draw.cell_width * (columns : Int) →
            (_vte_draw_get_char_edges draw c columns style).1 = 0)))
    ∧ (_vte_draw_unichar_is_local_graphic c = true →
        _vte_draw_get_char_edges draw c columns style
          = (0, draw.cell_width * (columns : Int), draw)) := by
  constructor
  · intro hg
    have hnw := update_fonts_width draw style c VTE_DRAW_NORMAL
    simp only [_vte_draw_get_char_edges, hg, Bool.false_eq_true, if_false, hnw,
               resolveValue]
    refine ⟨trivial, ?_, ?_, ?_⟩
    · intro h1
      rw [if_pos h1]
    · intro h1 h2
      rw [if_neg h1, if_pos h2]
    · intro h1 h2
      rw [if_neg h1, if_neg h2]
  · intro hg
    simp [_vte_draw_get_char_edges, hg]

/-- A concrete draw state for witnesses, with the wInfoA font in every
slot, 10x20 cells and zero spacing. -/
def wDraw : Draw := ⟨fun _ => wInfoA, 10, 20, ⟨0, 0, 0, 0⟩, fun c _ => c⟩

theorem claim10_char_edges_witness :
    ((_vte_draw_get_char_edges wDraw 65 1 0).1
        = wDraw.char_spacing.left + (if (1 : Nat) = 2 then wDraw.char_spacing.right else 0))
    ∧ _vte_draw_get_char_edges wDraw 0x2500 1 0
        = (0, wDraw.cell_width * ((1 : Nat) : Int), wDraw) :=
  ⟨((claim10_char_edges wDraw 65 1 0).1 (by decide)).2.1 (by decide),
   (claim10_char_edges wDraw 0x2500 1 0).2 (by decide)⟩

/-- Dispatching a single request always emits exactly one Canvas call. -/
lemma text_single_length (draw : Draw) (req : TextRequest) (style : Fin 4) :
    ((_vte_draw_text draw [req] style).1).length = 1 := by
  unfold _vte_draw_text _vte_draw_text_internal drawTextLoop drawTextLoop
  by_cases hg : _vte_draw_unichar_is_local_graphic
      (if req.mirror then draw.mirrorChar req.c req.boxMirror else req.c)
  · simp [drawTextStep, hg, flushGlyphs]
  · rcases hu : (font_info_get_unistr_info (draw.fonts style)
        (if req.mirror then draw.mirrorChar req.c req.boxMirror else req.c)).1.ufi
      with _ | line | ⟨f, gs⟩ | ⟨sf, gi⟩
    · exact absurd hu (resolveValue_ne_unknown _ _)
    · simp only [drawTextStep, hg, hu]
      simp [flushGlyphs]
    · simp only [drawTextStep, hg, hu]
      simp [flushGlyphs]
    · simp only [drawTextStep, hg, hu]
      simp [flushGlyphs, MAX_RUN_LENGTH]

/-- C9: _vte_draw_char returns exactly the negation of the cached
representation's has_unknown_chars flag, paints the request exactly when
that boolean is true (one emitted draw call) and paints nothing
otherwise, while _vte_draw_text paints the single request
unconditionally. -/
lemma draw_char_eq (draw : Draw) (req : TextRequest) (style : Fin 4) :
    _vte_draw_char draw req style
      = ((_vte_draw_has_char draw req.c style).1,
         if (_vte_draw_has_char draw req.c style).1
           then (_vte_draw_text (_vte_draw_has_char draw req.c style).2 [req] style).1
           else [],
         if (_vte_draw_has_char draw req.c style).1
           then (_vte_draw_text (_vte_draw_has_char draw req.c style).2 [req] style).2
           else (_vte_draw_has_char draw req.c style).2) := by
  unfold _vte_draw_char
  split <;> simp_all

theorem claim9_draw_char (draw : Draw) (req : TextRequest) (style : Fin 4)
    (hm : req.mirror = false) :
    ((_vte_draw_char draw req style).1
        = !(resolveValue (draw.fonts style) req.c).hasUnknownChars)
    ∧ ((_vte_draw_char draw req style).2.1).length
        = (if (resolveValue (draw.fonts style) req.c).hasUnknownChars then 0 else 1)
    ∧ ((_vte_draw_text draw [req] style).1).length = 1 := by
  have hc1 : (_vte_draw_has_char draw req.c style).1
      = !(resolveValue (draw.fonts style) req.c).hasUnknownChars := rfl
  refine ⟨?_, ?_, text_single_length draw req style⟩
  · rw [draw_char_eq]
    exact hc1
  · rw [draw_char_eq]
    cases hu : (resolveValue (draw.fonts style) req.c).hasUnknownChars with
    | true =>
        have : (_vte_draw_has_char draw req.c style).1 = false := by rw [hc1, hu]; rfl
        simp [this]
    | false =>
        have : (_vte_draw_has_char draw req.c style).1 = true := by rw [hc1, hu]; rfl
        simp [this, text_single_length]

def wReq : TextRequest := ⟨65, 0, 0, 1, false, false⟩

theorem claim9_draw_char_witness :
    (_vte_draw_char wDraw wReq 0).1
        = !(resolveValue (wDraw.fonts 0) 65).hasUnknownChars
    ∧ ((_vte_draw_text wDraw [wReq] 0).1).length = 1 :=
  ⟨(claim9_draw_char wDraw wReq 0 rfl).1, (claim9_draw_char wDraw wReq 0 rfl).2.2⟩

/-- A font context whose shaper yields the single-glyph cairo path for
ASCII and a layout-line shape (NULL line) for everything else. -/
def wShapeB : ShapeResult := ⟨10240, 0, none⟩

def wInfoB : FontInfo :=
  ⟨fun _ => unistrInfoZero, 10, 20, 15,
   fun c => if c < 128 then wShapeA else wShapeB, fun f => some f⟩

def wDrawB : Draw := ⟨fun _ => wInfoB, 10, 20, ⟨0, 0, 0, 0⟩, fun c _ => c⟩

/-- C1 counterexample: request 1 (U+0041) is SingleGlyph and is left
pending in the cairo batch; request 2 (U+012C) takes the layout-line
path.  The dispatcher emits the layout-line call FIRST and the batch for
request 1 only afterwards, at the end-of-loop flush: the pending
SingleGlyph batch is NOT emitted before the ShapedLine's own draw call,
and the draw calls are not in request order. -/
theorem claim1_counterexample :
    (_vte_draw_text_internal wDrawB
        [⟨65, 0, 0, 1, false, false⟩, ⟨300, 10, 0, 1, false, false⟩] 0).1
      = [DrawCall.showLayoutLine none 10 15, DrawCall.showGlyphs 3 [(42, 0, 15)]] := by
  decide

/-- The single Canvas call a non-batched representation issues at
position (x, y). -/
def repCall (u : UFI) (x y : Int) : DrawCall :=
  match u with
  | UFI.usingPangoLayoutLine l => DrawCall.showLayoutLine l x y
  | UFI.usingPangoGlyphString f gs => DrawCall.showGlyphString f gs x y
  | _ => DrawCall.showGlyphs 0 []

/-- C1 amended: when a request whose cached representation is GlyphRun
(pango glyph string) or ShapedLine (pango layout line) is encountered,
the dispatcher issues that representation's own single draw call
immediately WITHOUT flushing the pending SingleGlyph batch: the
last_scaled_font/pending-batch accumulator passes through unchanged, and
the pending batch is emitted only at a later flush point (scaled-font
change, batch limit, or end of the request sequence) — so draw calls are
not, in general, emitted in request order. -/
theorem claim1_run_no_flush (style : Fin 4) (draw : Draw) (last : Option Nat)
    (pend : List (Nat × Int × Int)) (req : TextRequest)
    (hm : req.mirror = false)
    (hg : _vte_draw_unichar_is_local_graphic req.c = false)
    (hu : (∃ l, (resolveValue (draw.fonts style) req.c).ufi = UFI.usingPangoLayoutLine l)
        ∨ (∃ f gs, (resolveValue (draw.fonts style) req.c).ufi
              = UFI.usingPangoGlyphString f gs)) :
    (drawTextStep style draw last pend req).2.2.1 = last
    ∧ (drawTextStep style draw last pend req).2.2.2 = pend
    ∧ ∃ x y, (drawTextStep style draw last pend req).1
        = [repCall (resolveValue (draw.fonts style) req.c).ufi x y] := by
  have hc : (if req.mirror then draw.mirrorChar req.c req.boxMirror else req.c) = req.c := by
    rw [hm]
    rfl
  rcases hu with ⟨l, hl⟩ | ⟨f, gs, hl⟩ <;>
  · unfold drawTextStep
    rw [hc]
    simp only [hg, Bool.false_eq_true, if_false]
    rw [show (font_info_get_unistr_info (draw.fonts style) req.c).1.ufi
          = _ from hl]
    rw [hl]
    exact ⟨rfl, rfl, _, _, rfl⟩

def wPend : List (Nat × Int × Int) := [(42, 0, 15)]

theorem claim1_run_no_flush_witness :
    (drawTextStep 0 wDrawB (some 3) wPend ⟨300, 10, 0, 1, false, false⟩).2.2.1 = some 3
    ∧ (drawTextStep 0 wDrawB (some 3) wPend ⟨300, 10, 0, 1, false, false⟩).2.2.2 = wPend
    ∧ ∃ x y, (drawTextStep 0 wDrawB (some 3) wPend ⟨300, 10, 0, 1, false, false⟩).1
        = [repCall (resolveValue (wDrawB.fonts 0) 300).ufi x y] :=
  claim1_run_no_flush 0 wDrawB (some 3) wPend ⟨300, 10, 0, 1, false, false⟩
    rfl (by decide) (Or.inl ⟨none, by decide⟩)

/-- The glyph list of a cairo batch call ([] for the other calls). -/
def glyphsOf : DrawCall → List (Nat × Int × Int)
  | DrawCall.showGlyphs _ gs => gs
  | _ => []

/-- The glyph index of a SingleGlyph (cairo) representation. -/
def cairoIndexOf : UFI → Nat
  | UFI.usingCairoGlyph _ gi => gi
  | _ => 0

/-- The positioned glyph the dispatcher emits for a SingleGlyph request:
the cached glyph index, x = left char edge + request x, and y = request
y + top spacing + the normal font's ascent. -/
def expectedGlyph (draw : Draw) (style : Fin 4) (req : TextRequest) : Nat × Int × Int :=
  (cairoIndexOf (resolveValue (draw.fonts style) req.c).ufi,
   (_vte_draw_get_char_edges draw req.c req.columns style).1 + req.x,
   req.y + draw.char_spacing.top + ((draw.fonts VTE_DRAW_NORMAL).ascent : Int))

/-- A request whose code point is outside the local-graphic set, is not
mirrored, and whose cached representation is SingleGlyph under the
scaled font sf. -/
def CairoReq (draw : Draw) (style : Fin 4) (sf : Nat) (req : TextRequest) : Prop :=
  req.mirror = false
  ∧ _vte_draw_unichar_is_local_graphic req.c = false
  ∧ ∃ gi, (resolveValue (draw.fonts style) req.c).ufi = UFI.usingCairoGlyph sf gi

/-- Observational similarity of draw states: equal classifications and
equal scalar metrics.  Lazy classification only fills caches; it never
changes anything observable. -/
def DrawSim (d1 d2 : Draw) : Prop :=
  (∀ s c, resolveValue (d2.fonts s) c = resolveValue (d1.fonts s) c)
  ∧ (∀ s, (d2.fonts s).width = (d1.fonts s).width)
  ∧ (∀ s, (d2.fonts s).ascent = (d1.fonts s).ascent)
  ∧ (∀ s, (d2.fonts s).height = (d1.fonts s).height)
  ∧ d2.cell_width = d1.cell_width
  ∧ d2.char_spacing = d1.char_spacing
  ∧ d2.mirrorChar = d1.mirrorChar

lemma drawSim_refl (d : Draw) : DrawSim d d :=
  ⟨fun _ _ => rfl, fun _ => rfl, fun _ => rfl, fun _ => rfl, rfl, rfl, rfl⟩

lemma drawSim_trans {d1 d2 d3 : Draw} (h12 : DrawSim d1 d2) (h23 : DrawSim d2 d3) :
    DrawSim d1 d3 := by
  obtain ⟨a1, a2, a3, a4, a5, a6, a7⟩ := h12
  obtain ⟨b1, b2, b3, b4, b5, b6, b7⟩ := h23
  exact ⟨fun s c => (b1 s c).trans (a1 s c), fun s => (b2 s).trans (a2 s),
         fun s => (b3 s).trans (a3 s), fun s => (b4 s).trans (a4 s),
         b5.trans a5, b6.trans a6, b7.trans a7⟩

lemma drawSim_update (d : Draw) (style : Fin 4) (c : Nat) :
    DrawSim d { d with fonts := (Function.update d.fonts style
        ((font_info_get_unistr_info (d.fonts style) c).2.1)) } :=
  ⟨fun s c2 => update_fonts_resolve d style c s c2,
   fun s => update_fonts_width d style c s,
   fun s => update_fonts_ascent d style c s,
   fun s => update_fonts_height d style c s, rfl, rfl, rfl⟩

lemma drawSim_char_edges (d : Draw) (c : Nat) (cols : Nat) (style : Fin 4) :
    DrawSim d (_vte_draw_get_char_edges d c cols style).2.2 := by
  unfold _vte_draw_get_char_edges
  split
  · exact drawSim_refl d
  · exact drawSim_update d style c

lemma char_edges_val_sim {d1 d2 : Draw} (h : DrawSim d1 d2) (c : Nat)
    (cols : Nat) (style : Fin 4) :
    (_vte_draw_get_char_edges d2 c cols style).1
      = (_vte_draw_get_char_edges d1 c cols style).1 := by
  obtain ⟨hres, hw, ha, hh, hcw, hcs, hmi⟩ := h
  by_cases hg : _vte_draw_unichar_is_local_graphic c
  · simp [_vte_draw_get_char_edges, hg]
  · have hres2 : (font_info_get_unistr_info (d2.fonts style) c).1
        = (font_info_get_unistr_info (d1.fonts style) c).1 := hres style c
    simp only [_vte_draw_get_char_edges, hg, Bool.false_eq_true, if_false,
               update_fonts_width]
    rw [hres2, hw VTE_DRAW_NORMAL, hcw, hcs]

lemma expectedGlyph_sim {d1 d2 : Draw} (h : DrawSim d1 d2) (style : Fin 4)
    (req : TextRequest) :
    expectedGlyph d2 style req = expectedGlyph d1 style req := by
  unfold expectedGlyph
  rw [h.1 style req.c, char_edges_val_sim h req.c req.columns style,
      h.2.2.2.2.2.1, h.2.2.1 VTE_DRAW_NORMAL]

lemma cairoReq_sim {d1 d2 : Draw} (h : DrawSim d1 d2) (style : Fin 4)
    (sf : Nat) (req : TextRequest) :
    CairoReq d1 style sf req → CairoReq d2 style sf req := by
  rintro ⟨hm, hg, gi, hu⟩
  exact ⟨hm, hg, gi, by rw [h.1 style req.c]; exact hu⟩

lemma drawTextStep_cairo (style : Fin 4) (draw : Draw) (last : Option Nat)
    (pend : List (Nat × Int × Int)) (req : TextRequest) (sf gi : Nat)
    (hm : req.mirror = false)
    (hg : _vte_draw_unichar_is_local_graphic req.c = false)
    (hu : (resolveValue (draw.fonts style) req.c).ufi = UFI.usingCairoGlyph sf gi) :
    ∃ d2, DrawSim draw d2
      ∧ drawTextStep style draw last pend req
          = (if last ≠ some sf ∨ pend.length = MAX_RUN_LENGTH
              then (flushGlyphs last pend, d2, some sf, [expectedGlyph draw style req])
              else ([], d2, some sf, pend ++ [expectedGlyph draw style req])) := by
  have hc : (if req.mirror then draw.mirrorChar req.c req.boxMirror else req.c) = req.c := by
    rw [hm]; rfl
  have hsim1 := drawSim_update draw style req.c
  have hsim : DrawSim draw (_vte_draw_get_char_edges
      { draw with fonts := (Function.update draw.fonts style
          ((font_info_get_unistr_info (draw.fonts style) req.c).2.1)) }
      req.c req.columns style).2.2 :=
    drawSim_trans hsim1 (drawSim_char_edges _ req.c req.columns style)
  refine ⟨_, hsim, ?_⟩
  have hu' : (font_info_get_unistr_info (draw.fonts style) req.c).1.ufi
      = UFI.usingCairoGlyph sf gi := hu
  have hEG : expectedGlyph draw style req
      = (gi,
         (_vte_draw_get_char_edges
            { draw with fonts := (Function.update draw.fonts style
                ((font_info_get_unistr_info (draw.fonts style) req.c).2.1)) }
            req.c req.columns style).1 + req.x,
         req.y + (_vte_draw_get_char_edges
            { draw with fonts := (Function.update draw.fonts style
                ((font_info_get_unistr_info (draw.fonts style) req.c).2.1)) }
            req.c req.columns style).2.2.char_spacing.top
          + (((_vte_draw_get_char_edges
            { draw with fonts := (Function.update draw.fonts style
                ((font_info_get_unistr_info (draw.fonts style) req.c).2.1)) }
            req.c req.columns style).2.2.fonts VTE_DRAW_NORMAL).ascent : Int)) := by
    unfold expectedGlyph
    rw [char_edges_val_sim hsim1 req.c req.columns style]
    rw [hsim.2.2.2.2.2.1, hsim.2.2.1 VTE_DRAW_NORMAL]
    simp only [hu, cairoIndexOf]
  rw [hEG]
  unfold drawTextStep
  rw [hc]
  simp only [hg, Bool.false_eq_true, if_false, hu']

/-- Loop invariant for a run of SingleGlyph requests under one scaled
font: starting with last_scaled_font = sf and a pending batch of at most
MAX_RUN_LENGTH glyphs, the loop keeps the font, emits only full batches
of exactly MAX_RUN_LENGTH glyphs under sf, conserves the glyphs in
request order, and ends with a pending batch that is empty only if
nothing was ever pending. -/
lemma loop_cairo (style : Fin 4) (sf : Nat) (reqs : List TextRequest) :
    ∀ (draw : Draw) (pend : List (Nat × Int × Int)),
      (∀ req ∈ reqs, CairoReq draw style sf req) →
      pend.length ≤ MAX_RUN_LENGTH →
      DrawSim draw (drawTextLoop style draw (some sf) pend reqs).2.1
      ∧ (drawTextLoop style draw (some sf) pend reqs).2.2.1 = some sf
      ∧ ((drawTextLoop style draw (some sf) pend reqs).2.2.2).length ≤ MAX_RUN_LENGTH
      ∧ ((drawTextLoop style draw (some sf) pend reqs).2.2.2 = []
          ↔ (pend = [] ∧ reqs = []))
      ∧ (((drawTextLoop style draw (some sf) pend reqs).1).map glyphsOf).flatten
            ++ (drawTextLoop style draw (some sf) pend reqs).2.2.2
          = pend ++ reqs.map (expectedGlyph draw style)
      ∧ (∀ call ∈ (drawTextLoop style draw (some sf) pend reqs).1,
          ∃ gs, call = DrawCall.showGlyphs sf gs ∧ gs.length = MAX_RUN_LENGTH)
      ∧ MAX_RUN_LENGTH * ((drawTextLoop style draw (some sf) pend reqs).1).length
            + ((drawTextLoop style draw (some sf) pend reqs).2.2.2).length
          = pend.length + reqs.length := by
  induction reqs with
  | nil =>
      intro draw pend h hlen
      refine ⟨drawSim_refl draw, rfl, hlen, by simp [drawTextLoop], ?_, ?_, ?_⟩
      · simp [drawTextLoop]
      · simp [drawTextLoop]
      · simp [drawTextLoop]
  | cons req reqs ih =>
      intro draw pend h hlen
      obtain ⟨hm, hg, gi, hu⟩ := h req (List.mem_cons_self _ _)
      obtain ⟨d2, hsim, hstep⟩ :=
        drawTextStep_cairo style draw (some sf) pend req sf gi hm hg hu
      have htail : ∀ r ∈ reqs, CairoReq d2 style sf r :=
        fun r hr => cairoReq_sim hsim style sf r (h r (List.mem_cons_of_mem _ hr))
      have hmapEq : expectedGlyph d2 style = expectedGlyph draw style :=
        funext (fun r => expectedGlyph_sim hsim style r)
      by_cases hfull : pend.length = MAX_RUN_LENGTH
      · -- the batch is full: the step flushes it and starts a new batch
        rw [if_pos (Or.inr hfull)] at hstep
        have hpne : ¬ pend.isEmpty = true := by
          cases pend with
          | nil => exact absurd hfull (by decide)
          | cons a t => simp [List.isEmpty]
        have hflush : flushGlyphs (some sf) pend = [DrawCall.showGlyphs sf pend] := by
          unfold flushGlyphs
          rw [if_neg hpne]
          rfl
        rw [hflush] at hstep
        have hloop : drawTextLoop style draw (some sf) pend (req :: reqs)
            = ([DrawCall.showGlyphs sf pend]
                ++ (drawTextLoop style d2 (some sf)
                      [expectedGlyph draw style req] reqs).1,
               (drawTextLoop style d2 (some sf)
                  [expectedGlyph draw style req] reqs).2) := by
          show (let s := drawTextStep style draw (some sf) pend req
                let rest := drawTextLoop style s.2.1 s.2.2.1 s.2.2.2 reqs
                (s.1 ++ rest.1, rest.2)) = _
          rw [hstep]
        obtain ⟨ih1, ih2, ih3, ih4, ih5, ih6, ih7⟩ :=
          ih d2 [expectedGlyph draw style req] htail (by simp [MAX_RUN_LENGTH])
        rw [hloop]
        refine ⟨drawSim_trans hsim ih1, ih2, ih3, ?_, ?_, ?_, ?_⟩
        · constructor
          · intro hempty
            exact absurd (ih4.mp hempty).1 (by simp)
          · rintro ⟨-, hcons⟩
            cases hcons
        · show (pend ++ ((drawTextLoop style d2 (some sf)
              [expectedGlyph draw style req] reqs).1.map glyphsOf).flatten)
              ++ (drawTextLoop style d2 (some sf)
                    [expectedGlyph draw style req] reqs).2.2.2 = _
          rw [List.append_assoc, ih5, hmapEq]
          simp
        · intro call hcall
          rcases List.mem_append.mp hcall with hl | hr
          · rw [List.mem_singleton.mp hl]
            exact ⟨pend, rfl, hfull⟩
          · exact ih6 call hr
        · simp [MAX_RUN_LENGTH] at ih7 hfull ⊢
          omega
      · -- room in the batch: the glyph is appended, nothing is emitted
        rw [if_neg (by simp [hfull])] at hstep
        have hlt : pend.length < MAX_RUN_LENGTH := lt_of_le_of_ne hlen hfull
        have hloop : drawTextLoop style draw (some sf) pend (req :: reqs)
            = ((drawTextLoop style d2 (some sf)
                  (pend ++ [expectedGlyph draw style req]) reqs).1,
               (drawTextLoop style d2 (some sf)
                  (pend ++ [expectedGlyph draw style req]) reqs).2) := by
          show (let s := drawTextStep style draw (some sf) pend req
                let rest := drawTextLoop style s.2.1 s.2.2.1 s.2.2.2 reqs
                (s.1 ++ rest.1, rest.2)) = _
          rw [hstep]
          rfl
        obtain ⟨ih1, ih2, ih3, ih4, ih5, ih6, ih7⟩ :=
          ih d2 (pend ++ [expectedGlyph draw style req]) htail
            (by simp only [List.length_append, List.length_singleton]; omega)
        rw [hloop]
        refine ⟨drawSim_trans hsim ih1, ih2, ih3, ?_, ?_, ih6, ?_⟩
        · constructor
          · intro hempty
            rcases ih4.mp hempty with ⟨happ, -⟩
            exact absurd happ (by simp)
          · rintro ⟨-, hcons⟩
            cases hcons
        · show ((drawTextLoop style d2 (some sf)
              (pend ++ [expectedGlyph draw style req]) reqs).1.map glyphsOf).flatten
              ++ (drawTextLoop style d2 (some sf)
                    (pend ++ [expectedGlyph draw style req]) reqs).2.2.2 = _
          rw [ih5, hmapEq]
          simp
        · simp [MAX_RUN_LENGTH] at ih7 hlt ⊢
          omega

/-- C6: for a request sequence of n code points all classified
SingleGlyph under one identical scaled font (none local-graphic, none
mirrored), _vte_draw_text_internal issues exactly
ceil(n / MAX_RUN_LENGTH) draw calls, every one a cairo_show_glyphs batch
under that scaled font holding between 1 and MAX_RUN_LENGTH glyphs (the
batch is flushed when it reaches the limit), and the concatenation of
the batches is exactly the requests' glyphs in request order at their
exact per-glyph (x, y) positions. -/
theorem claim6_batching (draw : Draw) (style : Fin 4) (sf : Nat)
    (reqs : List TextRequest)
    (h : ∀ req ∈ reqs, CairoReq draw style sf req) :
    ((_vte_draw_text_internal draw reqs style).1).length
        = (reqs.length + MAX_RUN_LENGTH - 1) / MAX_RUN_LENGTH
    ∧ (∀ call ∈ (_vte_draw_text_internal draw reqs style).1,
        ∃ gs, call = DrawCall.showGlyphs sf gs
          ∧ 0 < gs.length ∧ gs.length ≤ MAX_RUN_LENGTH)
    ∧ (((_vte_draw_text_internal draw reqs style).1).map glyphsOf).flatten
        = reqs.map (expectedGlyph draw style) := by
  cases reqs with
  | nil =>
      refine ⟨?_, ?_, ?_⟩ <;>
        simp [_vte_draw_text_internal, drawTextLoop, flushGlyphs, MAX_RUN_LENGTH]
  | cons req reqs =>
      obtain ⟨hm, hg, gi, hu⟩ := h req (List.mem_cons_self _ _)
      obtain ⟨d2, hsim, hstep⟩ :=
        drawTextStep_cairo style draw none [] req sf gi hm hg hu
      rw [if_pos (Or.inl (by simp))] at hstep
      have hstep2 : drawTextStep style draw none [] req
          = ([], d2, some sf, [expectedGlyph draw style req]) := by
        rw [hstep]; rfl
      have htail : ∀ r ∈ reqs, CairoReq d2 style sf r :=
        fun r hr => cairoReq_sim hsim style sf r (h r (List.mem_cons_of_mem _ hr))
      have hmapEq : expectedGlyph d2 style = expectedGlyph draw style :=
        funext (fun r => expectedGlyph_sim hsim style r)
      obtain ⟨l1, l2, l3, l4, l5, l6, l7⟩ :=
        loop_cairo style sf reqs d2 [expectedGlyph draw style req] htail
          (by simp [MAX_RUN_LENGTH])
      set L := drawTextLoop style d2 (some sf) [expectedGlyph draw style req] reqs
        with hLdef
      have hint : _vte_draw_text_internal draw (req :: reqs) style
          = (L.1 ++ flushGlyphs L.2.2.1 L.2.2.2, L.2.1) := by
        unfold _vte_draw_text_internal
        show (let r := (let s := drawTextStep style draw none [] req
                        let rest := drawTextLoop style s.2.1 s.2.2.1 s.2.2.2 reqs
                        (s.1 ++ rest.1, rest.2))
              (r.1 ++ flushGlyphs r.2.2.1 r.2.2.2, r.2.1)) = _
        rw [hstep2]
        rfl
      have hpne : L.2.2.2 ≠ [] := by
        intro hnil
        exact absurd (l4.mp hnil).1 (by simp)
      have hflush : flushGlyphs L.2.2.1 L.2.2.2
          = [DrawCall.showGlyphs sf L.2.2.2] := by
        rw [l2]
        unfold flushGlyphs
        rw [if_neg (by simpa [List.isEmpty_iff] using hpne)]
        rfl
      have hmpos : 0 < L.2.2.2.length := List.length_pos.mpr hpne
      rw [hint, hflush]
      refine ⟨?_, ?_, ?_⟩
      · simp only [List.length_append, List.length_singleton, List.length_cons]
        simp [MAX_RUN_LENGTH] at l3 l7 hmpos ⊢
        omega
      · intro call hcall
        rcases List.mem_append.mp hcall with hl | hr
        · obtain ⟨gs, hgs, hlen100⟩ := l6 call hl
          exact ⟨gs, hgs, by rw [hlen100]; decide, le_of_eq hlen100⟩
        · rw [List.mem_singleton.mp hr]
          exact ⟨_, rfl, hmpos, l3⟩
      · simp only [List.map_append, List.flatten_append]
        have hsingle : (List.map glyphsOf [DrawCall.showGlyphs sf L.2.2.2]).flatten
            = L.2.2.2 := by simp [glyphsOf]
        rw [hsingle, l5, hmapEq]
        simp

def w150 : List TextRequest :=
  (List.range 150).map (fun i : Nat => ⟨65, 10 * (i : Int), 0, 1, false, false⟩)

theorem claim6_batching_witness :
    ((_vte_draw_text_internal wDraw w150 0).1).length = 2 := by
  have hreq : ∀ req ∈ w150, CairoReq wDraw 0 3 req := by
    intro req hr
    rcases List.mem_map.mp hr with ⟨i, hi, rfl⟩
    exact ⟨rfl, (by decide : _vte_draw_unichar_is_local_graphic 65 = false), 42,
           (by decide : (resolveValue (wDraw.fonts 0) 65).ufi = UFI.usingCairoGlyph 3 42)⟩
  have h := (claim6_batching wDraw 0 3 w150 hreq).1
  have hlen : w150.length = 150 := by
    rw [w150, List.length_map, List.length_range]
  rw [h, hlen]
  decide

/-! _vte_draw_set_text_font's bold-rejection heuristic (vtedraw.cc lines
920-940) and the font-destruction loop shared by _vte_draw_free (lines
802-808) and _vte_draw_set_text_font (lines 891-897). -/

/-- One style slot's font_info as seen by the rejection heuristic and
the free loop: its identity (the pointer) and its average char width. -/
structure StyleFont where
  id : Nat
  width : Nat
deriving DecidableEq, Repr

/-- The four slots of draw->fonts[4]: f0 = VTE_DRAW_NORMAL, f1 =
VTE_DRAW_BOLD, f2 = VTE_DRAW_ITALIC, f3 = VTE_DRAW_ITALIC|VTE_DRAW_BOLD. -/
structure StyleFonts where
  f0 : StyleFont
  f1 : StyleFont
  f2 : StyleFont
  f3 : StyleFont
deriving DecidableEq, Repr

/-- ratio = draw->fonts[bold]->width * 100 / draw->fonts[normal]->width:
C integer division on positive gints, i.e. Nat division. -/
def boldWidthPct (boldW normalW : Nat) : Int :=
  ((boldW * 100 / normalW : Nat) : Int)

/-- The rejection heuristic of _vte_draw_set_text_font applied to the
four freshly acquired per-variant font_infos: for bold vs normal, then
for bold-italic vs italic, if abs(ratio - 100) > 10 the bold handle is
released (font_info_destroy; its id is recorded) and the slot aliased to
the normal variant's info.  Returns the final slots and the released
ids. -/
def _vte_draw_set_text_font_select (f : StyleFonts) : StyleFonts × List Nat :=
  let s1 := if 10 < (boldWidthPct f.f1.width f.f0.width - 100).natAbs
            then ({ f with f1 := f.f0 }, [f.f1.id])
            else (f, [])
  if 10 < (boldWidthPct s1.1.f3.width s1.1.f2.width - 100).natAbs
  then ({ s1.1 with f3 := s1.1.f2 }, s1.2 ++ [s1.1.f3.id])
  else (s1.1, s1.2)

/-- The font-destruction loop of _vte_draw_free and of
_vte_draw_set_text_font, unrolled for style = 3, 2, 1, 0: destroy
fonts[style] unless it equals (as a pointer) fonts[style-1]; style 0 is
always destroyed.  Returns the destroyed ids in loop order. -/
def _vte_draw_free_fonts (f : StyleFonts) : List Nat :=
  (if f.f3.id ≠ f.f2.id then [f.f3.id] else [])
  ++ (if f.f2.id ≠ f.f1.id then [f.f2.id] else [])
  ++ (if f.f1.id ≠ f.f0.id then [f.f1.id] else [])
  ++ [f.f0.id]

/-- C7: the heuristic rejects the bold (and, independently, the
bold-italic) variant exactly when abs(width*100/normal_width - 100) > 10
in integer arithmetic: on rejection the slot is aliased to the normal
(resp. italic) variant's info and the rejected handle is released; when
the ratio is within 10% both slots keep their distinct instances. -/
theorem claim7_bold_rejection (f : StyleFonts)
    (h10 : f.f1.id ≠ f.f0.id) (h32 : f.f3.id ≠ f.f2.id) :
    (10 < (boldWidthPct f.f1.width f.f0.width - 100).natAbs →
       (_vte_draw_set_text_font_select f).1.f1 = f.f0
       ∧ f.f1.id ∈ (_vte_draw_set_text_font_select f).2)
    ∧ (¬ 10 < (boldWidthPct f.f1.width f.f0.width - 100).natAbs →
       (_vte_draw_set_text_font_select f).1.f1 = f.f1
       ∧ (_vte_draw_set_text_font_select f).1.f1.id
           ≠ (_vte_draw_set_text_font_select f).1.f0.id)
    ∧ (10 < (boldWidthPct f.f3.width f.f2.width - 100).natAbs →
       (_vte_draw_set_text_font_select f).1.f3 = f.f2
       ∧ f.f3.id ∈ (_vte_draw_set_text_font_select f).2)
    ∧ (¬ 10 < (boldWidthPct f.f3.width f.f2.width - 100).natAbs →
       (_vte_draw_set_text_font_select f).1.f3 = f.f3
       ∧ (_vte_draw_set_text_font_select f).1.f3.id
           ≠ (_vte_draw_set_text_font_select f).1.f2.id) := by
  obtain ⟨a0, a1, a2, a3⟩ := f
  simp only [] at h10 h32
  by_cases hb : 10 < (boldWidthPct a1.width a0.width - 100).natAbs <;>
  by_cases hi : 10 < (boldWidthPct a3.width a2.width - 100).natAbs
  · have hsel : _vte_draw_set_text_font_select ⟨a0, a1, a2, a3⟩
        = (⟨a0, a0, a2, a2⟩, [a1.id, a3.id]) := by
      simp [_vte_draw_set_text_font_select, hb, hi]
    exact ⟨fun _ => ⟨by rw [hsel], by rw [hsel]; simp⟩,
           fun hc => absurd hb hc,
           fun _ => ⟨by rw [hsel], by rw [hsel]; simp⟩,
           fun hc => absurd hi hc⟩
  · have hsel : _vte_draw_set_text_font_select ⟨a0, a1, a2, a3⟩
        = (⟨a0, a0, a2, a3⟩, [a1.id]) := by
      simp [_vte_draw_set_text_font_select, hb, hi]
    exact ⟨fun _ => ⟨by rw [hsel], by rw [hsel]; simp⟩,
           fun hc => absurd hb hc,
           fun hc => absurd hc hi,
           fun _ => ⟨by rw [hsel], by rw [hsel]; exact h32⟩⟩
  · have hsel : _vte_draw_set_text_font_select ⟨a0, a1, a2, a3⟩
        = (⟨a0, a1, a2, a2⟩, [a3.id]) := by
      simp [_vte_draw_set_text_font_select, hb, hi]
    exact ⟨fun hc => absurd hc hb,
           fun _ => ⟨by rw [hsel], by rw [hsel]; exact h10⟩,
           fun _ => ⟨by rw [hsel], by rw [hsel]; simp⟩,
           fun hc => absurd hi hc⟩
  · have hsel : _vte_draw_set_text_font_select ⟨a0, a1, a2, a3⟩
        = (⟨a0, a1, a2, a3⟩, []) := by
      simp [_vte_draw_set_text_font_select, hb, hi]
    exact ⟨fun hc => absurd hc hb,
           fun _ => ⟨by rw [hsel], by rw [hsel]; exact h10⟩,
           fun hc => absurd hc hi,
           fun _ => ⟨by rw [hsel], by rw [hsel]; exact h32⟩⟩

/-- C8: for the style set built by _vte_draw_set_text_font from four
freshly acquired (pairwise distinct) font_infos, the destruction loop
releases every distinct info held among the four slots exactly once:
aliased slots (bold→normal, bold-italic→italic) are not destroyed twice
and nothing is leaked. -/
theorem claim8_free_once (f : StyleFonts)
    (hd01 : f.f0.id ≠ f.f1.id) (hd02 : f.f0.id ≠ f.f2.id)
    (hd03 : f.f0.id ≠ f.f3.id) (hd12 : f.f1.id ≠ f.f2.id)
    (hd13 : f.f1.id ≠ f.f3.id) (hd23 : f.f2.id ≠ f.f3.id) :
    ((_vte_draw_free_fonts (_vte_draw_set_text_font_select f).1).count
        (_vte_draw_set_text_font_select f).1.f0.id = 1)
    ∧ ((_vte_draw_free_fonts (_vte_draw_set_text_font_select f).1).count
        (_vte_draw_set_text_font_select f).1.f1.id = 1)
    ∧ ((_vte_draw_free_fonts (_vte_draw_set_text_font_select f).1).count
        (_vte_draw_set_text_font_select f).1.f2.id = 1)
    ∧ ((_vte_draw_free_fonts (_vte_draw_set_text_font_select f).1).count
        (_vte_draw_set_text_font_select f).1.f3.id = 1)
    ∧ (∀ x ∈ _vte_draw_free_fonts (_vte_draw_set_text_font_select f).1,
        x = (_vte_draw_set_text_font_select f).1.f0.id
        ∨ x = (_vte_draw_set_text_font_select f).1.f1.id
        ∨ x = (_vte_draw_set_text_font_select f).1.f2.id
        ∨ x = (_vte_draw_set_text_font_select f).1.f3.id) := by
  obtain ⟨a0, a1, a2, a3⟩ := f
  simp only [] at hd01 hd02 hd03 hd12 hd13 hd23
  by_cases hb : 10 < (boldWidthPct a1.width a0.width - 100).natAbs <;>
  by_cases hi : 10 < (boldWidthPct a3.width a2.width - 100).natAbs
  · have hsel : (_vte_draw_set_text_font_select ⟨a0, a1, a2, a3⟩).1
        = ⟨a0, a0, a2, a2⟩ := by
      simp [_vte_draw_set_text_font_select, hb, hi]
    rw [hsel]
    have hfree : _vte_draw_free_fonts ⟨a0, a0, a2, a2⟩ = [a2.id, a0.id] := by
      simp [_vte_draw_free_fonts, Ne.symm hd02]
    rw [hfree]
    refine ⟨?_, ?_, ?_, ?_, ?_⟩
    · simp [List.count_cons, hd02, Ne.symm hd02]
    · simp [List.count_cons, hd02, Ne.symm hd02]
    · simp [List.count_cons, hd02, Ne.symm hd02]
    · simp [List.count_cons, hd02, Ne.symm hd02]
    · intro x hx
      simp only [List.mem_cons, List.mem_singleton, List.not_mem_nil, or_false] at hx
      rcases hx with rfl | rfl
      · right; right; left; rfl
      · left; rfl
  · have hsel : (_vte_draw_set_text_font_select ⟨a0, a1, a2, a3⟩).1
        = ⟨a0, a0, a2, a3⟩ := by
      simp [_vte_draw_set_text_font_select, hb, hi]
    rw [hsel]
    have hfree : _vte_draw_free_fonts ⟨a0, a0, a2, a3⟩ = [a3.id, a2.id, a0.id] := by
      simp [_vte_draw_free_fonts, Ne.symm hd02, Ne.symm hd23]
    rw [hfree]
    refine ⟨?_, ?_, ?_, ?_, ?_⟩
    · simp [List.count_cons, hd02, hd03, Ne.symm hd02, Ne.symm hd03]
    · simp [List.count_cons, hd02, hd03, Ne.symm hd02, Ne.symm hd03]
    · simp [List.count_cons, hd02, hd23, Ne.symm hd02, Ne.symm hd23]
    · simp [List.count_cons, hd03, hd23, Ne.symm hd03, Ne.symm hd23]
    · intro x hx
      simp only [List.mem_cons, List.mem_singleton, List.not_mem_nil, or_false] at hx
      rcases hx with rfl | rfl | rfl
      · right; right; right; rfl
      · right; right; left; rfl
      · left; rfl
  · have hsel : (_vte_draw_set_text_font_select ⟨a0, a1, a2, a3⟩).1
        = ⟨a0, a1, a2, a2⟩ := by
      simp [_vte_draw_set_text_font_select, hb, hi]
    rw [hsel]
    have hfree : _vte_draw_free_fonts ⟨a0, a1, a2, a2⟩ = [a2.id, a1.id, a0.id] := by
      simp [_vte_draw_free_fonts, Ne.symm hd12, Ne.symm hd01]
    rw [hfree]
    refine ⟨?_, ?_, ?_, ?_, ?_⟩
    · simp [List.count_cons, hd01, hd02, Ne.symm hd01, Ne.symm hd02]
    · simp [List.count_cons, hd01, hd12, Ne.symm hd01, Ne.symm hd12]
    · simp [List.count_cons, hd02, hd12, Ne.symm hd02, Ne.symm hd12]
    · simp [List.count_cons, hd02, hd12, Ne.symm hd02, Ne.symm hd12]
    · intro x hx
      simp only [List.mem_cons, List.mem_singleton, List.not_mem_nil, or_false] at hx
      rcases hx with rfl | rfl | rfl
      · right; right; left; rfl
      · right; left; rfl
      · left; rfl
  · have hsel : (_vte_draw_set_text_font_select ⟨a0, a1, a2, a3⟩).1
        = ⟨a0, a1, a2, a3⟩ := by
      simp [_vte_draw_set_text_font_select, hb, hi]
    rw [hsel]
    have hfree : _vte_draw_free_fonts ⟨a0, a1, a2, a3⟩
        = [a3.id, a2.id, a1.id, a0.id] := by
      simp [_vte_draw_free_fonts, Ne.symm hd01, Ne.symm hd12, Ne.symm hd23]
    rw [hfree]
    refine ⟨?_, ?_, ?_, ?_, ?_⟩
    · simp [List.count_cons, hd01, hd02, hd03,
            Ne.symm hd01, Ne.symm hd02, Ne.symm hd03]
    · simp [List.count_cons, hd01, hd12, hd13,
            Ne.symm hd01, Ne.symm hd12, Ne.symm hd13]
    · simp [List.count_cons, hd02, hd12, hd23,
            Ne.symm hd02, Ne.symm hd12, Ne.symm hd23]
    · simp [List.count_cons, hd03, hd13, hd23,
            Ne.symm hd03, Ne.symm hd13, Ne.symm hd23]
    · intro x hx
      simp only [List.mem_cons, List.mem_singleton, List.not_mem_nil, or_false] at hx
      rcases hx with rfl | rfl | rfl | rfl
      · right; right; right; rfl
      · right; right; left; rfl
      · right; left; rfl
      · left; rfl

def wFonts : StyleFonts := ⟨⟨0, 10⟩, ⟨1, 12⟩, ⟨2, 10⟩, ⟨3, 10⟩⟩

theorem claim7_bold_rejection_witness :
    ((_vte_draw_set_text_font_select wFonts).1.f1 = wFonts.f0
      ∧ (1 : Nat) ∈ (_vte_draw_set_text_font_select wFonts).2)
    ∧ ((_vte_draw_set_text_font_select wFonts).1.f3 = wFonts.f3
      ∧ (_vte_draw_set_text_font_select wFonts).1.f3.id
          ≠ (_vte_draw_set_text_font_select wFonts).1.f2.id) :=
  ⟨(claim7_bold_rejection wFonts (by decide) (by decide)).1 (by decide),
   (claim7_bold_rejection wFonts (by decide) (by decide)).2.2.2 (by decide)⟩

theorem claim8_free_once_witness :
    (_vte_draw_free_fonts (_vte_draw_set_text_font_select wFonts).1).count
        (_vte_draw_set_text_font_select wFonts).1.f1.id = 1 :=
  (claim8_free_once wFonts (by decide) (by decide) (by decide) (by decide)
    (by decide) (by decide)).2.1

end VteDraw
